import Mathlib

/-!
# graphql-weaver — verification of the link-resolution / schema-merging core

Shallow embedding, in Lean 4, of the parts of the graphql-weaver source that the
frozen claims are about:

* `src/graphql/links.ts` — `SchemaLinkTransformer` (link resolution, batching,
  `splitTypeName` routing, `createNestedArgumentWithVariableNode`) and
  `TypeResolversTransformer` (abstract-type resolution);
* `src/graphql/schema-merger.ts` — `mergeSchemas` / `createRootFieldMaybe`.

The repository ships two revisions of `SchemaLinkTransformer`; where they differ
(the `resolveBatch` remap guard, collision-safe variable/alias introduction) the
embedding follows the later revision (the one importing `language-utils`), whose
behavior the specification describes.  Helpers living in files not included in
the source drop (`language-utils.ts`, `renaming.ts`) are modelled from the
spec's words and marked as such in their doc comments.

JavaScript strings are embedded as Lean `String`s (with `String.data` used for
character-level operations), JavaScript arrays as `List`s, `Map`/object-literal
maps as association lists with the appropriate first/last-wins lookup, and
`async` plumbing is elided: a resolver that awaits a backend response is a pure
function of the (abstract) backend response.
-/

set_option autoImplicit false

namespace GraphQLWeaver

/-! ## JavaScript string splitting

`argumentPath.split('.')` from `createNestedArgumentWithVariableNode`.
JavaScript's `split` with a one-character separator: `""` splits to `[""]`,
`"a."` splits to `["a", ""]`. -/

/-- Character-level model of JavaScript `s.split('.')`. -/
def splitOnDotChars : List Char → List (List Char)
  | [] => [[]]
  | c :: cs =>
      let rest := splitOnDotChars cs
      if c = '.' then [] :: rest
      else
        match rest with
        | [] => [[c]]
        | r :: rs => (c :: r) :: rs

/-- `s.split('.')` on Lean strings. -/
def splitDot (s : String) : List String :=
  (splitOnDotChars s.data).map (fun cs => String.mk cs)

/-! ## GraphQL value / argument AST nodes

The subset of the graphql-js AST constructed by the Query-Fragment Builder. -/

/-- graphql-js `ValueNode`, restricted to the constructors this code builds:
`Variable` references and `ObjectValue` literals (an object field is a
name/value pair). -/
inductive ValueNode where
  | variableNode (name : String)
  | objectValue (fields : List (String × ValueNode))

/-- graphql-js `ArgumentNode`: argument name plus value. -/
structure ArgumentNode where
  name : String
  value : ValueNode

/-- `createNestedArgumentWithVariableNode(argumentPath, variableName)` from
`links.ts`: split the dotted path, shift off the argument name (throwing
`Argument must not be empty` when it is missing or empty), then wrap the
variable reference in one single-field `ObjectValue` per remaining segment,
iterating over the reversed segment list. -/
def createNestedArgumentWithVariableNode (argumentPath : String) (variableName : String) :
    Except String ArgumentNode :=
  match splitDot argumentPath with
  | [] => .error "Argument must not be empty"
  | argName :: parts =>
    if argName = "" then .error "Argument must not be empty"
    else
      let value : ValueNode :=
        parts.reverse.foldl (fun value part => .objectValue [(part, value)])
          (.variableNode variableName)
      .ok { name := argName, value := value }

/-! ## Link / endpoint configuration

`LinkConfig` and `EndpointConfig` from `proxy-configuration.ts` as consumed by
`SchemaLinkTransformer` (only the fields the transformer reads are modelled).
`getTypePrefix` lives in `renaming.ts`, which is not part of the source drop;
per the spec the merged names follow `<backendPrefix><OriginalTypeName>`, so the
endpoint's type prefix is modelled as a configuration field `typePrefix`. -/

/-- One link declaration (`LinkConfig`): target backend (`endpoint`), target
root field, dotted argument path, batch flag, optional key field. -/
structure LinkConfig where
  field : String
  argument : String
  endpoint : String
  batchMode : Bool
  keyField : Option String
deriving DecidableEq, Repr

/-- One backend (`EndpointConfig`), with its link map (a JS object literal:
unique keys) and its merged-name type prefix (modelled from the spec, see
above). -/
structure EndpointConfig where
  name : String
  typePrefix : String
  links : List (String × LinkConfig)
deriving DecidableEq, Repr

/-- Lookup in a JS `Map` built with `new Map(entries)`: a later entry with the
same key overwrites an earlier one, so the last matching entry wins. -/
def jsMapGet {κ ν : Type} [DecidableEq κ] (entries : List (κ × ν)) (k : κ) : Option ν :=
  (entries.reverse.find? (fun e => e.1 = k)).map (fun e => e.2)

/-- Property access `obj[k]` on a JS object literal with unique keys. -/
def jsObjGet {ν : Type} (obj : List (String × ν)) (k : String) : Option ν :=
  (obj.find? (fun e => e.1 = k)).map (fun e => e.2)

/-- `splitTypeName(mergedName)` from `links.ts`: scan the configured endpoints
in order and return, for the first endpoint whose type prefix starts the merged
name, its name together with the merged name with the prefix removed
(`mergedName.substr(prefix.length)`). -/
def splitTypeName (endpoints : List EndpointConfig) (mergedName : String) :
    Option (String × String) :=
  match endpoints with
  | [] => none
  | endpoint :: rest =>
    if endpoint.typePrefix.data <+: mergedName.data then
      some (endpoint.name, String.mk (mergedName.data.drop endpoint.typePrefix.data.length))
    else splitTypeName rest mergedName

/-! ## Schema types and `transformField`

The slice of the graphql-js type system `transformField` inspects: wrapped
type references (`GraphQLList` / `GraphQLNonNull` around a named type) and the
schema's query-root field types, which are either object types (with their own
field map) or something else. -/

/-- A (possibly wrapped) type reference. -/
inductive TypeRef where
  | named (name : String)
  | listOf (t : TypeRef)
  | nonNull (t : TypeRef)
deriving DecidableEq, Repr

/-- `getNamedType`: strip `GraphQLList` / `GraphQLNonNull` wrappers down to the
underlying named type (returned here by name). -/
def getNamedType : TypeRef → String
  | .named n => n
  | .listOf t => getNamedType t
  | .nonNull t => getNamedType t

/-- A type as found on the query root: an object type carries its field map
(field name to field type); anything else only its name. -/
inductive SchemaType where
  | object (name : String) (fields : List (String × TypeRef))
  | other (name : String)
deriving DecidableEq, Repr

/-- Outcome of `transformField` on one field when it does not throw. -/
inductive FieldTransformResult where
  | unchanged
  | installed (newFieldTypeName : String)
deriving DecidableEq, Repr

/-- Composition-time behavior of `SchemaLinkTransformer.transformField` for the
field `fieldName` of the merged outer type `oldOuterTypeName`:

* route the outer type name through `splitTypeName`; no match → untouched;
* look up the owning endpoint in the endpoint map (`new Map` over the
  configured endpoints) — missing is a thrown configuration error;
* look up the link `originalTypeName.fieldName`; absent → untouched;
* look up the link's target endpoint — missing is a thrown error;
* require the query root's field for the target endpoint to be an object type
  (a JS `TypeError` if the field is absent altogether, the thrown
  `Expected object type…` error if present but not an object type);
* otherwise install the batch-aware resolver and rewrite the field's declared
  type to the unwrapped named type of the target field's type
  (`getNamedType(context.mapType(field.type))`; a missing target field is the
  JS `TypeError` of reading `.type` of `undefined`).

`schemaQueryFields` is `schema.getQueryType().getFields()` and `mapType` is
`context.mapType` restricted to what `getNamedType` observes. -/
def transformField (endpoints : List EndpointConfig)
    (schemaQueryFields : String → Option SchemaType)
    (mapType : TypeRef → TypeRef)
    (oldOuterTypeName fieldName : String) : Except String FieldTransformResult :=
  match splitTypeName endpoints oldOuterTypeName with
  | none => .ok .unchanged
  | some (endpointName, originalTypeName) =>
    match jsMapGet (endpoints.map (fun e => (e.name, e))) endpointName with
    | none => .error ("Endpoint " ++ endpointName ++ " not found")
    | some endpoint =>
      let linkName := originalTypeName ++ "." ++ fieldName
      match jsObjGet endpoint.links linkName with
      | none => .ok .unchanged
      | some link =>
        match jsMapGet (endpoints.map (fun e => (e.name, e))) link.endpoint with
        | none => .error ("Link " ++ linkName ++ " refers to nonexistent endpoint " ++ link.endpoint)
        | some targetEndpointConfig =>
          match schemaQueryFields targetEndpointConfig.name with
          | none => .error "TypeError: cannot read field of undefined query root field"
          | some (.other _) =>
            .error ("Expected object type as query type of endpoint " ++ targetEndpointConfig.name)
          | some (.object _ fields) =>
            match jsObjGet fields link.field with
            | none => .error "TypeError: cannot read type of undefined target field"
            | some fieldType => .ok (.installed (getNamedType (mapType fieldType)))

/-! ## A concrete two-backend configuration

The `users` / `posts` scenario from the spec's testable properties, with the
link's argument path left empty to probe the empty-path failure mode. -/

/-- A link `Post.author → users.user`, with an empty argument path. -/
def emptyArgLink : LinkConfig :=
  { field := "user", argument := "", endpoint := "users", batchMode := true,
    keyField := some "id" }

/-- The `posts` backend carrying `emptyArgLink`. -/
def postsEndpoint : EndpointConfig :=
  { name := "posts", typePrefix := "Posts", links := [("Post.author", emptyArgLink)] }

/-- The `users` backend (link target). -/
def usersEndpoint : EndpointConfig :=
  { name := "users", typePrefix := "Users", links := [] }

/-- Both demo backends. -/
def demoEndpoints : List EndpointConfig := [postsEndpoint, usersEndpoint]

/-- Query-root fields of the merged schema's source: namespace `users` exposes
an object type with a root field `user : User`. -/
def demoQueryFields : String → Option SchemaType := fun n =>
  if n = "users" then some (.object "UsersQuery" [("user", .named "User")]) else none

/-- C7 counterexample: with an empty argument path configured,
`transformField` succeeds (composition does not abort — the argument path is
never validated at composition time), while the resolution-time argument
construction is what raises `Argument must not be empty`; a client request
reaching the link resolver does trigger it. -/
theorem emptyArgumentPath_passes_composition :
    emptyArgLink.argument = "" ∧
    transformField demoEndpoints demoQueryFields id "PostsPost" "author"
      = .ok (.installed "User") ∧
    createNestedArgumentWithVariableNode emptyArgLink.argument "param"
      = .error "Argument must not be empty" := by
  exact ⟨rfl, rfl, rfl⟩

/-- C7 amended: an empty argument path is not detected at composition time —
whenever `transformField` reaches a link (routing, endpoint lookup, link
lookup, target lookup and target-field lookup all succeed), it installs the
resolver without inspecting the argument path; the `Argument must not be
empty` error is raised at resolution time, when a dispatch constructs the
argument node from the link's (empty) argument path. -/
theorem transformField_ignores_empty_argument
    (endpoints : List EndpointConfig) (schemaQueryFields : String → Option SchemaType)
    (mapType : TypeRef → TypeRef) (outerName fieldName endpointName originalTypeName : String)
    (endpoint targetEndpointConfig : EndpointConfig) (link : LinkConfig)
    (queryTypeName : String) (fields : List (String × TypeRef)) (fieldType : TypeRef)
    (hsplit : splitTypeName endpoints outerName = some (endpointName, originalTypeName))
    (hep : jsMapGet (endpoints.map (fun e => (e.name, e))) endpointName = some endpoint)
    (hlink : jsObjGet endpoint.links (originalTypeName ++ "." ++ fieldName) = some link)
    (htgt : jsMapGet (endpoints.map (fun e => (e.name, e))) link.endpoint = some targetEndpointConfig)
    (hq : schemaQueryFields targetEndpointConfig.name = some (.object queryTypeName fields))
    (hf : jsObjGet fields link.field = some fieldType)
    (harg : link.argument = "") :
    transformField endpoints schemaQueryFields mapType outerName fieldName
      = .ok (.installed (getNamedType (mapType fieldType))) ∧
    ∀ varName, createNestedArgumentWithVariableNode link.argument varName
      = .error "Argument must not be empty" := by
  constructor
  · unfold transformField
    rw [hsplit]
    simp only [hep, hlink, htgt, hq, hf]
  · intro varName
    rw [harg]
    rfl

/-- C7 witness: the amended statement at the concrete `posts`/`users`
configuration with the empty-path link. -/
theorem transformField_ignores_empty_argument_witness :
    transformField demoEndpoints demoQueryFields id "PostsPost" "author"
      = .ok (.installed "User") ∧
    createNestedArgumentWithVariableNode emptyArgLink.argument "param"
      = .error "Argument must not be empty" := by
  have h := transformField_ignores_empty_argument demoEndpoints demoQueryFields id
    "PostsPost" "author" "posts" "Post" postsEndpoint usersEndpoint emptyArgLink
    "UsersQuery" [("user", .named "User")] (.named "User")
    (by decide) (by decide) (by decide) (by decide) (by decide) (by decide) rfl
  exact ⟨h.1, h.2 "param"⟩

/-! ## C9: routing is a left inverse of prefixing -/

/-- Two prefixes of the same list are comparable; specialized to `q ++ r`. -/
theorem comparePrefixes {α : Type} {p q r : List α} (h : p <+: q ++ r) :
    p <+: q ∨ q <+: p :=
  List.prefix_or_prefix_of_prefix h ⟨r, rfl⟩

/-- If `b`'s prefix is the only configured prefix matching
`b.typePrefix ++ t`, then routing that merged name yields `(b.name, t)`. -/
theorem splitTypeName_eq_of_unique (endpoints : List EndpointConfig)
    (b : EndpointConfig) (t : String) (hmem : b ∈ endpoints)
    (huniq : ∀ e ∈ endpoints, e.typePrefix.data <+: b.typePrefix.data ++ t.data → e = b) :
    splitTypeName endpoints (String.mk (b.typePrefix.data ++ t.data)) = some (b.name, t) := by
  induction endpoints with
  | nil => cases hmem
  | cons e rest ih =>
    by_cases hc : e.typePrefix.data <+: b.typePrefix.data ++ t.data
    · have heb : e = b := huniq e (List.mem_cons_self e rest) hc
      subst heb
      simp only [splitTypeName, String.data]
      rw [if_pos hc, List.drop_left]
    · have hbr : b ∈ rest := by
        rcases List.mem_cons.mp hmem with hbe | hbr
        · exact absurd (hbe ▸ (⟨t.data, rfl⟩ : b.typePrefix.data <+: b.typePrefix.data ++ t.data)) hc
        · exact hbr
      simp only [splitTypeName, String.data]
      rw [if_neg hc]
      exact ih hbr (fun e he hpre => huniq e (List.mem_cons_of_mem _ he) hpre)

/-- C9: under the precondition that no configured backend's type prefix is a
prefix of another configured backend's type prefix, routing a merged name
`prefixOf(b) ++ t` through `splitTypeName` yields back exactly `(b, t)`; and
`b` is the unique endpoint whose prefix matches at all, so the first-match
scan is trivially also the deterministic longest-prefix match. -/
theorem splitTypeName_left_inverse (endpoints : List EndpointConfig)
    (b : EndpointConfig) (t : String) (hmem : b ∈ endpoints)
    (hunamb : ∀ e1 ∈ endpoints, ∀ e2 ∈ endpoints,
      e1.typePrefix.data <+: e2.typePrefix.data → e1 = e2) :
    splitTypeName endpoints (String.mk (b.typePrefix.data ++ t.data)) = some (b.name, t) ∧
    ∀ e ∈ endpoints, e.typePrefix.data <+: b.typePrefix.data ++ t.data → e = b := by
  have huniq : ∀ e ∈ endpoints, e.typePrefix.data <+: b.typePrefix.data ++ t.data → e = b := by
    intro e he hpre
    rcases comparePrefixes hpre with h | h
    · exact hunamb e he b hmem h
    · exact (hunamb b hmem e he h).symm
  exact ⟨splitTypeName_eq_of_unique endpoints b t hmem huniq, huniq⟩

/-- C9 witness: routing `Users ++ User` over the demo backends yields the
`users` backend and the original type name `User`. -/
theorem splitTypeName_left_inverse_witness :
    splitTypeName demoEndpoints "UsersUser" = some ("users", "User") := by
  have h := splitTypeName_left_inverse demoEndpoints usersEndpoint "User"
    (by decide) (by decide)
  simpa using h.1

/-- C6: for a dotted argument path whose segments are `s1 :: rest` (with `s1`
nonempty), the builder returns an argument named `s1` whose value right-folds
`rest` into nested single-field object literals around the variable
reference. -/
theorem createNestedArgument_right_folds_path (argumentPath variableName s1 : String)
    (rest : List String) (hsplit : splitDot argumentPath = s1 :: rest) (hne : s1 ≠ "") :
    createNestedArgumentWithVariableNode argumentPath variableName =
      .ok { name := s1,
            value := rest.foldr (fun part value => .objectValue [(part, value)])
              (.variableNode variableName) } := by
  unfold createNestedArgumentWithVariableNode
  rw [hsplit]
  simp [hne]

/-- C6 witness: the path `"filter.id"` with variable `v` yields the binding
`{filter: {id: $v}}`. -/
theorem createNestedArgument_right_folds_path_witness :
    splitDot "filter.id" = ["filter", "id"] ∧ "filter" ≠ "" ∧
    createNestedArgumentWithVariableNode "filter.id" "v" =
      .ok { name := "filter",
            value := .objectValue [("id", .variableNode "v")] } := by
  exact ⟨rfl, by decide, by
    simpa using createNestedArgument_right_folds_path "filter.id" "v" "filter" ["id"] rfl (by decide)⟩

/-! ## Runtime link values and JavaScript truthiness

The scalar "link value" read off the parent object, and the values the engine
compares as DataLoader keys.  (IEEE-754 `NaN` is the one falsy JS value with no
counterpart here; numbers are embedded as integers.) -/

/-- A JavaScript runtime value as far as the link resolver inspects it. -/
inductive LinkValue where
  | nullV
  | undefinedV
  | boolV (b : Bool)
  | intV (n : Int)
  | strV (s : String)
  | objRef (id : Nat)
deriving DecidableEq, Repr

/-- JavaScript truthiness test `!value`: `null`, `undefined`, `false`, `0` and
`""` are falsy, everything else truthy. -/
def falsy : LinkValue → Bool
  | .nullV => true
  | .undefinedV => true
  | .boolV b => !b
  | .intV n => n == 0
  | .strV s => s == ""
  | .objRef _ => false

/-- One element of a batch-mode backend response: `itemKey` is the value the
response object carries under the key-field alias (`item[keyFieldAlias]`,
`undefinedV` when the backend omitted it), `payload` an opaque identity for
the rest of the item. -/
structure ResultItem where
  itemKey : LinkValue
  payload : Nat
deriving DecidableEq, Repr

/-- `resolveBatch(keys, info)` from the link engine, instrumented with the
trace of backend dispatches it issues (second component: the argument each
`basicResolve` call carries — the whole key list in batch mode, one singleton
per key otherwise).  The backend transport is the external collaborator, so
the response to a batched dispatch (`batchBackend`) and to a per-key dispatch
(`singleBackend`, `none` being a `null` response) are abstract parameters.

Mirrors the source: `result` is the batched response, or the per-key responses
in key order; the guard `!link.batchMode || !link.keyField` returns `result`
as-is; otherwise a JS `Map` is built from each item's key-field value to the
item and the output is `keys.map(key => map.get(key))`. -/
def resolveBatch (batchMode : Bool) (keyField : Option String)
    (batchBackend : List LinkValue → List ResultItem)
    (singleBackend : LinkValue → Option ResultItem)
    (keys : List LinkValue) :
    List (Option ResultItem) × List (List LinkValue) :=
  if batchMode then
    let items := batchBackend keys
    match keyField with
    | none => (items.map some, [keys])
    | some _ =>
      let entries := items.map (fun item => (item.itemKey, item))
      (keys.map (fun key => jsMapGet entries key), [keys])
  else
    (keys.map singleBackend, keys.map (fun key => [key]))

/-- On an entry list whose keys are pairwise distinct, the JS-`Map` last-wins
lookup agrees with a first-match scan. -/
theorem jsMapGet_eq_find? {κ ν : Type} [DecidableEq κ] (entries : List (κ × ν))
    (hnd : (entries.map Prod.fst).Nodup) (k : κ) :
    jsMapGet entries k = (entries.find? (fun e => e.1 = k)).map (fun e => e.2) := by
  induction entries with
  | nil => rfl
  | cons a es ih =>
    have hnd' : (es.map Prod.fst).Nodup := (List.nodup_cons.mp hnd).2
    have hnotin : a.1 ∉ es.map Prod.fst := (List.nodup_cons.mp hnd).1
    unfold jsMapGet
    rw [List.reverse_cons, List.find?_append]
    by_cases hk : a.1 = k
    · have hnone : es.reverse.find? (fun e => decide (e.1 = k)) = none := by
        rw [List.find?_eq_none]
        intro x hx
        simp only [decide_eq_true_eq]
        intro hxk
        exact hnotin (hk ▸ hxk ▸ List.mem_map_of_mem Prod.fst (List.mem_reverse.mp hx))
      rw [hnone]
      simp [List.find?_cons, hk]
    · have hsingle : List.find? (fun e => decide (e.1 = k)) [a] = none := by
        simp [List.find?_cons, hk]
      rw [hsingle, Option.or_none]
      have := ih hnd'
      unfold jsMapGet at this
      rw [this]
      simp [List.find?_cons, hk]

/-- C1: with `batchMode` and `keyField` both set, and a backend response whose
items carry pairwise-distinct key-field values, `resolveBatch` returns a list
of the same length as the requested keys whose `i`-th element is the response
item whose key-field value equals the `i`-th requested key (`none` when no
item matches) — whatever order, or subset, of items the backend returned; and
with `batchMode` unset or `keyField` unset, the backend's results are
returned as-is with no remapping. -/
theorem resolveBatch_remaps_by_keyField (keyFieldName : String)
    (batchBackend : List LinkValue → List ResultItem)
    (singleBackend : LinkValue → Option ResultItem)
    (keys : List LinkValue)
    (hnd : ((batchBackend keys).map ResultItem.itemKey).Nodup) :
    ((resolveBatch true (some keyFieldName) batchBackend singleBackend keys).1
        = keys.map (fun key => (batchBackend keys).find? (fun item => item.itemKey = key)) ∧
      (resolveBatch true (some keyFieldName) batchBackend singleBackend keys).1.length
        = keys.length) ∧
    ∀ (batchMode : Bool) (keyField : Option String),
      batchMode = false ∨ keyField = none →
      (resolveBatch batchMode keyField batchBackend singleBackend keys).1
        = if batchMode then (batchBackend keys).map some else keys.map singleBackend := by
  constructor
  · have hmain : (resolveBatch true (some keyFieldName) batchBackend singleBackend keys).1
        = keys.map (fun key => (batchBackend keys).find? (fun item => item.itemKey = key)) := by
      show keys.map (fun key =>
          jsMapGet ((batchBackend keys).map (fun item => (item.itemKey, item))) key) = _
      apply List.map_congr_left
      intro k _
      have hnd' : (((batchBackend keys).map (fun item => (item.itemKey, item))).map
          Prod.fst).Nodup := by
        rw [List.map_map]
        exact hnd
      rw [jsMapGet_eq_find? _ hnd' k, List.find?_map, Option.map_map]
      show Option.map (fun item => item)
          ((batchBackend keys).find? (fun item => decide (item.itemKey = k)))
        = (batchBackend keys).find? (fun item => decide (item.itemKey = k))
      simp
    exact ⟨hmain, by rw [hmain, List.length_map]⟩
  · intro batchMode keyField h
    rcases h with h | h
    · subst h; rfl
    · subst h
      cases batchMode <;> rfl

/-- Backend used in the C1 witness: returns the items for keys 3 and 1 only,
in reversed order, whatever was asked. -/
def permutedBackend : List LinkValue → List ResultItem := fun _ =>
  [{ itemKey := .intV 3, payload := 30 }, { itemKey := .intV 1, payload := 10 }]

/-- A per-key backend that always answers `null`. -/
def nullSingleBackend : LinkValue → Option ResultItem := fun _ => none

/-- C1 witness: keys `[1, 2, 3]` against the permuted, partial backend
response `[item 3, item 1]` come back in request order as
`[item 1, null, item 3]`. -/
theorem resolveBatch_remaps_by_keyField_witness :
    ((permutedBackend [.intV 1, .intV 2, .intV 3]).map ResultItem.itemKey).Nodup ∧
    (resolveBatch true (some "id") permutedBackend nullSingleBackend
        [.intV 1, .intV 2, .intV 3]).1
      = [some { itemKey := .intV 1, payload := 10 }, none,
         some { itemKey := .intV 3, payload := 30 }] := by
  refine ⟨by decide, ?_⟩
  rw [((resolveBatch_remaps_by_keyField "id" permutedBackend nullSingleBackend
    [.intV 1, .intV 2, .intV 3] (by decide)).1).1]
  rfl

/-- C3: with `batchMode` unset, `resolveBatch` on `N` collected keys issues
exactly `N` backend dispatches, one singleton dispatch per key in key order,
and returns the `N` per-key backend responses 1:1 in the order of the
requested keys — whether or not `keyField` is set. -/
theorem resolveBatch_nonbatch_one_dispatch_per_key (keyField : Option String)
    (batchBackend : List LinkValue → List ResultItem)
    (singleBackend : LinkValue → Option ResultItem)
    (keys : List LinkValue) :
    (resolveBatch false keyField batchBackend singleBackend keys).2
      = keys.map (fun key => [key]) ∧
    (resolveBatch false keyField batchBackend singleBackend keys).2.length
      = keys.length ∧
    (resolveBatch false keyField batchBackend singleBackend keys).1
      = keys.map singleBackend := by
  exact ⟨rfl, by simp [resolveBatch], rfl⟩

/-! ## The installed field resolver and the request-scoped loader table

`config.resolve` from `transformField`: read the link value off the parent
under the field's response alias, short-circuit on falsy, otherwise obtain the
per-request-context DataLoader (creating it — with the *current* call's
`GraphQLResolveInfo` captured in its batch closure — when absent) and enqueue
the value.  DataLoader itself is an external dependency; its contract (all
`load` calls of one batch window are coalesced, in call order and duplicates
included, into one `resolveBatch(keys)` call) is the pending-key list stored
here. -/

/-- The slice of a `GraphQLResolveInfo` the resolver reads directly:
`info.fieldNodes[0].alias` / `.name`, plus an opaque identity
(`selectionId`) standing for everything the captured info contributes to
query construction (fragments, variables, selection set). -/
structure ResolveInfo where
  fieldAlias : Option String
  fieldName : String
  selectionId : Nat
deriving DecidableEq, Repr

/-- `fieldNode.alias ? fieldNode.alias.value : fieldNode.name.value`. -/
def responseAlias (info : ResolveInfo) : String :=
  info.fieldAlias.getD info.fieldName

/-- One DataLoader: the `GraphQLResolveInfo` captured by its batch closure at
creation, and the keys loaded during the current batch window, in call
order. -/
structure Loader where
  info : ResolveInfo
  pendingKeys : List LinkValue
deriving DecidableEq, Repr

/-- `WeakMap.get`: the table's keys are unique, so first match. -/
def jsWeakMapGet {Ctx : Type} [DecidableEq Ctx] (m : List (Ctx × Loader)) (ctx : Ctx) :
    Option Loader :=
  (m.find? (fun e => e.1 = ctx)).map (fun e => e.2)

/-- Replace the (first, hence only) entry of `ctx` by `f` of it. -/
def updateFirst {Ctx : Type} [DecidableEq Ctx] (m : List (Ctx × Loader)) (ctx : Ctx)
    (f : Loader → Loader) : List (Ctx × Loader) :=
  match m with
  | [] => []
  | e :: rest => if e.1 = ctx then (e.1, f e.2) :: rest else e :: updateFirst rest ctx f

/-- One invocation of the installed `config.resolve`, against the loader
table: returns `some value` (and the untouched table) when the link value read
off the parent is falsy; otherwise enqueues the value on the context's loader,
creating the loader — capturing this call's `info` — if the context has none
yet.  (`none` as first component: the call returned the pending
`dataLoader.load(value)` future.) -/
def resolveStep {Ctx : Type} [DecidableEq Ctx] (source : String → LinkValue) (ctx : Ctx)
    (info : ResolveInfo) (loaders : List (Ctx × Loader)) :
    Option LinkValue × List (Ctx × Loader) :=
  let value := source (responseAlias info)
  if falsy value then (some value, loaders)
  else
    match jsWeakMapGet loaders ctx with
    | some _ =>
      (none, updateFirst loaders ctx
        (fun l => { l with pendingKeys := l.pendingKeys ++ [value] }))
    | none => (none, loaders ++ [(ctx, { info := info, pendingKeys := [value] })])

/-- C4: whenever the link value read off the parent object under the field's
response alias is falsy, the installed resolver returns that value unchanged
and the loader table is left untouched — no loader is consulted or created,
so no backend call can result from this invocation. -/
theorem resolve_falsy_short_circuits {Ctx : Type} [DecidableEq Ctx]
    (source : String → LinkValue) (ctx : Ctx) (info : ResolveInfo)
    (loaders : List (Ctx × Loader))
    (hfalsy : falsy (source (responseAlias info)) = true) :
    resolveStep source ctx info loaders = (some (source (responseAlias info)), loaders) := by
  unfold resolveStep
  simp [hfalsy]

/-- Parent object whose `author` property is `null`. -/
def nullAuthorSource : String → LinkValue := fun _ => .nullV

/-- The resolve info of a plain (unaliased) `author` field selection. -/
def authorInfo : ResolveInfo :=
  { fieldAlias := none, fieldName := "author", selectionId := 0 }

/-- C4 witness: a `null` link value is returned unchanged and the (empty)
loader table stays empty. -/
theorem resolve_falsy_short_circuits_witness :
    falsy (nullAuthorSource (responseAlias authorInfo)) = true ∧
    resolveStep nullAuthorSource (0 : Nat) authorInfo [] = (some .nullV, []) := by
  refine ⟨rfl, ?_⟩
  rw [resolve_falsy_short_circuits nullAuthorSource 0 authorInfo [] rfl]
  rfl

/-! ## C10: a batch is dispatched under the first caller's resolve info -/

/-- One resolver invocation for the link: the parent object (`source`) and the
call's `GraphQLResolveInfo`. -/
abbrev Invocation := (String → LinkValue) × ResolveInfo

/-- The link value an invocation reads off its parent. -/
def linkValueOf (inv : Invocation) : LinkValue :=
  inv.1 (responseAlias inv.2)

/-- Run a sequence of resolver invocations, all under the same request
context, against the loader table. -/
def runInvocations {Ctx : Type} [DecidableEq Ctx] (ctx : Ctx) (invs : List Invocation)
    (loaders : List (Ctx × Loader)) : List (Ctx × Loader) :=
  invs.foldl (fun tbl inv => (resolveStep inv.1 ctx inv.2 tbl).2) loaders

/-- Flushing a loader's batch window calls the batch function captured at
creation, i.e. `resolveBatch(pendingKeys, info)` with the creation-time
`info`: this pairs what that call receives. -/
def flushLoader (l : Loader) : ResolveInfo × List LinkValue :=
  (l.info, l.pendingKeys)

theorem jsWeakMapGet_updateFirst {Ctx : Type} [DecidableEq Ctx]
    (m : List (Ctx × Loader)) (ctx : Ctx) (f : Loader → Loader) :
    jsWeakMapGet (updateFirst m ctx f) ctx = (jsWeakMapGet m ctx).map f := by
  induction m with
  | nil => rfl
  | cons e rest ih =>
    by_cases he : e.1 = ctx
    · unfold updateFirst jsWeakMapGet
      simp [List.find?_cons, he]
    · unfold updateFirst jsWeakMapGet
      simp only [if_neg he, List.find?_cons, he, decide_eq_true_eq, decide_False]
      unfold jsWeakMapGet at ih
      simpa [List.find?_cons, he] using ih

theorem runInvocations_existing {Ctx : Type} [DecidableEq Ctx] (ctx : Ctx)
    (invs : List Invocation) (tbl : List (Ctx × Loader)) (L : Loader)
    (h : jsWeakMapGet tbl ctx = some L) :
    jsWeakMapGet (runInvocations ctx invs tbl) ctx
      = some { info := L.info,
               pendingKeys := L.pendingKeys
                 ++ (invs.filter (fun inv => !falsy (linkValueOf inv))).map linkValueOf } := by
  induction invs generalizing tbl L with
  | nil =>
    simpa [runInvocations] using h
  | cons inv rest ih =>
    show jsWeakMapGet (runInvocations ctx rest (resolveStep inv.1 ctx inv.2 tbl).2) ctx = _
    by_cases hf : falsy (linkValueOf inv)
    · have hstep : (resolveStep inv.1 ctx inv.2 tbl).2 = tbl := by
        unfold resolveStep
        simp [linkValueOf] at hf
        simp [hf]
      rw [hstep]
      have := ih tbl L h
      simpa [List.filter_cons, hf] using this
    · have hstep : (resolveStep inv.1 ctx inv.2 tbl).2
          = updateFirst tbl ctx
              (fun l => { l with pendingKeys := l.pendingKeys ++ [linkValueOf inv] }) := by
        unfold resolveStep
        simp only [linkValueOf, Bool.not_eq_true] at hf ⊢
        simp [hf, h]
      rw [hstep]
      have hget : jsWeakMapGet (updateFirst tbl ctx
          (fun l => { l with pendingKeys := l.pendingKeys ++ [linkValueOf inv] })) ctx
          = some { info := L.info, pendingKeys := L.pendingKeys ++ [linkValueOf inv] } := by
        rw [jsWeakMapGet_updateFirst, h]
        rfl
      have := ih _ _ hget
      rw [this]
      simp [List.filter_cons, hf]

/-- C10: within one request context, if any resolver invocation carries a
truthy link value, then after all invocations the context's single loader
holds the `GraphQLResolveInfo` of the *first* such invocation — the one that
created the loader — together with all truthy link values in call order; so
flushing the batch dispatches every collected key under the first caller's
resolve info (fragments, variables, selection set), the infos of all later
coalesced invocations being ignored for query construction. -/
theorem batch_dispatch_uses_first_caller_info {Ctx : Type} [DecidableEq Ctx] (ctx : Ctx)
    (invs : List Invocation) (tbl : List (Ctx × Loader)) (inv₀ : Invocation)
    (h0 : jsWeakMapGet tbl ctx = none)
    (hfirst : invs.find? (fun inv => !falsy (linkValueOf inv)) = some inv₀) :
    jsWeakMapGet (runInvocations ctx invs tbl) ctx
      = some { info := inv₀.2,
               pendingKeys :=
                 (invs.filter (fun inv => !falsy (linkValueOf inv))).map linkValueOf } ∧
    ∀ L, jsWeakMapGet (runInvocations ctx invs tbl) ctx = some L →
      (flushLoader L).1 = inv₀.2 := by
  have hmain : jsWeakMapGet (runInvocations ctx invs tbl) ctx
      = some { info := inv₀.2,
               pendingKeys :=
                 (invs.filter (fun inv => !falsy (linkValueOf inv))).map linkValueOf } := by
    induction invs generalizing tbl with
    | nil => simp at hfirst
    | cons inv rest ih =>
      show jsWeakMapGet (runInvocations ctx rest (resolveStep inv.1 ctx inv.2 tbl).2) ctx = _
      by_cases hf : falsy (linkValueOf inv)
      · have hstep : (resolveStep inv.1 ctx inv.2 tbl).2 = tbl := by
          unfold resolveStep
          simp [linkValueOf] at hf
          simp [hf]
        rw [hstep]
        have hfirst' : rest.find? (fun inv => !falsy (linkValueOf inv)) = some inv₀ := by
          rw [List.find?_cons_of_neg] at hfirst
          · exact hfirst
          · simp [hf]
        have := ih tbl h0 hfirst'
        simpa [List.filter_cons, hf] using this
      · have hinv : inv₀ = inv := by
          rw [List.find?_cons_of_pos] at hfirst
          · exact (Option.some.inj hfirst).symm
          · simp [hf]
        have hstep : (resolveStep inv.1 ctx inv.2 tbl).2
            = tbl ++ [(ctx, { info := inv.2, pendingKeys := [linkValueOf inv] })] := by
          unfold resolveStep
          simp only [linkValueOf, Bool.not_eq_true] at hf ⊢
          simp [hf, h0]
        rw [hstep]
        have hget : jsWeakMapGet
            (tbl ++ [(ctx, { info := inv.2, pendingKeys := [linkValueOf inv] })]) ctx
            = some { info := inv.2, pendingKeys := [linkValueOf inv] } := by
          unfold jsWeakMapGet at h0 ⊢
          rw [List.find?_append, Option.map_eq_none'.mp h0, Option.none_or]
          simp [List.find?_cons]
        have := runInvocations_existing ctx rest _ _ hget
        rw [this]
        subst hinv
        simp [List.filter_cons, hf]
  exact ⟨hmain, fun L hL => by rw [hmain] at hL; rw [← Option.some.inj hL]; rfl⟩

/-- First demo caller: parent holds link value `7`, selection identity `1`. -/
def firstCaller : Invocation :=
  (fun _ => .intV 7, { fieldAlias := none, fieldName := "author", selectionId := 1 })

/-- Second demo caller: parent holds link value `8`, a different selection. -/
def secondCaller : Invocation :=
  (fun _ => .intV 8, { fieldAlias := none, fieldName := "author", selectionId := 2 })

/-- C10 witness: two truthy callers coalesce into one loader that carries both
keys but only the first caller's resolve info. -/
theorem batch_dispatch_uses_first_caller_info_witness :
    jsWeakMapGet (runInvocations (0 : Nat) [firstCaller, secondCaller] []) 0
      = some { info := firstCaller.2, pendingKeys := [.intV 7, .intV 8] } := by
  have h := (batch_dispatch_uses_first_caller_info (0 : Nat) [firstCaller, secondCaller] []
    firstCaller rfl rfl).1
  rw [h]
  rfl

/-! ## C5: the abstract-type resolver (`TypeResolversTransformer`)

`transformAbstractType` installs a `resolveType` that requires `__typename` on
the fetched object, looks the name up via `context.findType` and accepts only
object types; `transformObjectType` drops any backend-supplied `isTypeOf`.
The fetched object's `__typename` property is `typename` below (`none` when
the property is absent, `some` its string value — a present-but-non-string
discriminator is not modelled); the registry of the target schema is
`findType`. -/

/-- Installed `resolveType` of an abstract type named `abstractTypeName`. -/
def resolveType (abstractTypeName : String) (findType : String → Option SchemaType)
    (typename : Option String) : Except String SchemaType :=
  match typename with
  | none =>
    .error ("__typename does not exist on fetched object of abstract type " ++ abstractTypeName)
  | some name =>
    match findType name with
    | none =>
      .error ("__typename of abstract type " ++ abstractTypeName ++ " is set to " ++ name
        ++ ", but there is no type with that name")
    | some (.object n fields) => .ok (.object n fields)
    | some (.other _) =>
      .error ("__typename of abstract type " ++ abstractTypeName ++ " is set to " ++ name
        ++ ", but that is not a GraphQLObjectType.")

/-- An object type's configuration as the pipeline hands it to
`transformObjectType`; `isTypeOf` is the backend-supplied concrete-type
check (of opaque type `ρ`). -/
structure ObjectTypeConfig (ρ : Type) where
  name : String
  isTypeOf : Option ρ

/-- `transformObjectType`: `config.isTypeOf = undefined`. -/
def transformObjectType {ρ : Type} (config : ObjectTypeConfig ρ) : ObjectTypeConfig ρ :=
  { config with isTypeOf := none }

/-- C5: the installed `resolveType` fails exactly when the discriminator
`__typename` is absent, or names no type in the registry, or names a
non-object type; otherwise it returns the found object type.  And
`transformObjectType` removes any backend-supplied `isTypeOf` from plain
object types. -/
theorem resolveType_fails_iff {ρ : Type} (abstractTypeName : String)
    (findType : String → Option SchemaType) (typename : Option String)
    (config : ObjectTypeConfig ρ) :
    ((∃ e, resolveType abstractTypeName findType typename = .error e) ↔
      (typename = none ∨
       (∃ n, typename = some n ∧ findType n = none) ∨
       (∃ n nm, typename = some n ∧ findType n = some (.other nm)))) ∧
    (∀ n nm fields, typename = some n → findType n = some (.object nm fields) →
      resolveType abstractTypeName findType typename = .ok (.object nm fields)) ∧
    (transformObjectType config).isTypeOf = none := by
  refine ⟨⟨?_, ?_⟩, ?_, rfl⟩
  · rintro ⟨e, he⟩
    match htn : typename with
    | none => exact Or.inl rfl
    | some n =>
      match hft : findType n with
      | none => exact Or.inr (Or.inl ⟨n, rfl, hft⟩)
      | some (.object nm fields) =>
        simp [resolveType, hft] at he
      | some (.other nm) => exact Or.inr (Or.inr ⟨n, nm, rfl, hft⟩)
  · rintro (h | ⟨n, hn, hft⟩ | ⟨n, nm, hn, hft⟩)
    · subst h; exact ⟨_, rfl⟩
    · subst hn
      exact ⟨"__typename of abstract type " ++ abstractTypeName ++ " is set to " ++ n
        ++ ", but there is no type with that name", by simp [resolveType, hft]⟩
    · subst hn
      exact ⟨"__typename of abstract type " ++ abstractTypeName ++ " is set to " ++ n
        ++ ", but that is not a GraphQLObjectType.", by simp [resolveType, hft]⟩
  · intro n nm fields htn hft
    rw [htn]
    simp [resolveType, hft]

/-! ## C2: collision-free aliases and variable names

The link rewrite (`basicResolve` in the later `SchemaLinkTransformer`) extends
the caller's variable definitions via `addVariableDefinitionSafely` and the
caller's selection set via `addFieldSelectionSafely`.  Both helpers live in
`src/graphql/language-utils.ts`, which is not part of the source drop. -/

/-- A variable definition (`$name: Type`) of the operation being built. -/
structure VariableDefinitionNode where
  name : String
  varType : TypeRef
deriving DecidableEq, Repr

/-- A field selection with an optional response alias. -/
structure FieldSelection where
  aliasName : Option String
  name : String
deriving DecidableEq, Repr

/-- The response key a field selection produces: its alias if present, its
field name otherwise. -/
def effectiveAlias (sel : FieldSelection) : String :=
  sel.aliasName.getD sel.name

/-- Modelled from the spec: the fresh-name choice shared by the two
`language-utils.ts` helpers (file absent from the source drop); §4.5 only
requires "a name that cannot collide" with the given taken names, so a taken
base name is suffixed with one more underscore than the longest taken name —
making the result longer than every taken name, hence fresh. -/
def freshName (taken : List String) (base : String) : String :=
  if base ∈ taken then
    base ++ String.mk (List.replicate ((taken.map String.length).foldr max 0 + 1) '_')
  else base

/-- Every member is at most the foldr-max. -/
theorem le_foldr_max (l : List Nat) (x : Nat) (hx : x ∈ l) : x ≤ l.foldr max 0 := by
  induction l with
  | nil => cases hx
  | cons a t ih =>
    rcases List.mem_cons.mp hx with h | h
    · subst h; exact le_max_left _ _
    · exact le_trans (ih h) (le_max_right _ _)

/-- The chosen name never collides with a taken one. -/
theorem freshName_fresh (taken : List String) (base : String) :
    freshName taken base ∉ taken := by
  unfold freshName
  by_cases hb : base ∈ taken
  · rw [if_pos hb]
    intro hmem
    have hle : (base ++ String.mk (List.replicate
        ((taken.map String.length).foldr max 0 + 1) '_')).length
        ≤ (taken.map String.length).foldr max 0 :=
      le_foldr_max _ _ (List.mem_map_of_mem String.length hmem)
    have hlen : (base ++ String.mk (List.replicate
        ((taken.map String.length).foldr max 0 + 1) '_')).length
        = base.length + ((taken.map String.length).foldr max 0 + 1) := by
      rw [String.length_append]
      congr 1
      show (List.replicate ((taken.map String.length).foldr max 0 + 1) '_').length = _
      rw [List.length_replicate]
    omega
  · rw [if_neg hb]
    exact hb

/-- Modelled from the spec: `addVariableDefinitionSafely` from
`language-utils.ts` (absent from the source drop); per §4.5 it adds a variable
declaration of the given base name and type to the caller's variable
definitions, choosing a name that cannot collide with the existing variable
names, and returns the augmented list plus the chosen name. -/
def addVariableDefinitionSafely (variableDefinitions : List VariableDefinitionNode)
    (baseName : String) (varType : TypeRef) : List VariableDefinitionNode × String :=
  let name := freshName (variableDefinitions.map (fun d => d.name)) baseName
  (variableDefinitions ++ [{ name := name, varType := varType }], name)

/-- Modelled from the spec: `addFieldSelectionSafely` from `language-utils.ts`
(absent from the source drop); per §4.5 it adds a selection of `fieldName` to
the caller's selection set (fragment spreads flattened into the existing
aliases), choosing a response alias that cannot collide with any existing
alias, and returns the chosen alias plus the augmented selection set. -/
def addFieldSelectionSafely (selectionSet : List FieldSelection) (fieldName : String) :
    String × List FieldSelection :=
  let chosenAlias := freshName (selectionSet.map effectiveAlias) fieldName
  (chosenAlias, selectionSet ++ [{ aliasName := some chosenAlias, name := fieldName }])

/-- C2: the response alias introduced for the key-field selection never
collides with an alias already present in the caller's selection (in
particular, a collision with an existing alias `x` yields a different alias),
and the caller's original selections survive untouched as a prefix of the
augmented set; likewise the variable name introduced for the key variable
never collides with the caller's existing variable names, whose definitions
survive untouched. -/
theorem link_rewrite_names_never_collide (selectionSet : List FieldSelection)
    (fieldName : String) (variableDefinitions : List VariableDefinitionNode)
    (baseName : String) (varType : TypeRef) :
    ((addFieldSelectionSafely selectionSet fieldName).1 ∉ selectionSet.map effectiveAlias) ∧
    ((addFieldSelectionSafely selectionSet fieldName).2.take selectionSet.length
        = selectionSet) ∧
    ((addVariableDefinitionSafely variableDefinitions baseName varType).2
        ∉ variableDefinitions.map (fun d => d.name)) ∧
    ((addVariableDefinitionSafely variableDefinitions baseName varType).1.take
        variableDefinitions.length = variableDefinitions) := by
  refine ⟨freshName_fresh _ _, ?_, freshName_fresh _ _, ?_⟩
  · simp only [addFieldSelectionSafely]
    exact List.take_left _ _
  · simp only [addVariableDefinitionSafely]
    exact List.take_left _ _

/-! ## `schema-merger.ts`: `mergeSchemas` / `createRootFieldMaybe`

Graph types, resolvers and directives are opaque to the merger, so they are
type parameters (`τ`, `ρ`, `δ`).  `isNativeDirective` comes from
`native-symbols.ts` (not part of the source drop) and is likewise an abstract
parameter.  The JS object literal `fields` is an association list written
through `jsObjSet` (assignment `fields[namespace] = …` overwrites in place
when the key exists, appends otherwise). -/

/-- `NamedSchema`: namespace, per-operation root types of the wrapped schema
(`schema.getQueryType()` etc., `none` when the schema has no such root),
optional root resolvers, and the schema's non-built-in directives. -/
structure NamedSchemaInput (τ ρ δ : Type) where
  nspace : String
  queryType : Option τ
  mutationType : Option τ
  subscriptionType : Option τ
  queryResolver : Option ρ
  mutationResolver : Option ρ
  subscriptionResolver : Option ρ
  directives : List δ

/-- `FieldConfig` from `schema-merger.ts`: one namespace's contribution to a
root type (`type` is `undefined` when that schema has no such root). -/
structure RootFieldConfig (τ ρ : Type) where
  nspace : String
  type : Option τ
  resolver : Option ρ

/-- One emitted root field: the namespace field's type and resolver. -/
structure RootField (τ ρ : Type) where
  type : τ
  resolve : Option ρ

/-- An emitted root object type (`Query` / `Mutation` / `Subscription`). -/
structure RootObjectType (τ ρ : Type) where
  name : String
  fields : List (String × RootField τ ρ)

/-- JS object assignment `obj[k] = v`: overwrite in place when `k` exists,
append otherwise. -/
def jsObjSet {ν : Type} (obj : List (String × ν)) (k : String) (v : ν) :
    List (String × ν) :=
  if obj.any (fun e => e.1 = k) then obj.map (fun e => if e.1 = k then (k, v) else e)
  else obj ++ [(k, v)]

/-- Loop body of `createRootFieldMaybe`: skip namespaces without the root
type, otherwise `fields[namespace] = {type, resolve: resolver}`. -/
def addRootFieldConfig {τ ρ : Type} (fields : List (String × RootField τ ρ))
    (cfg : RootFieldConfig τ ρ) : List (String × RootField τ ρ) :=
  match cfg.type with
  | none => fields
  | some t => jsObjSet fields cfg.nspace { type := t, resolve := cfg.resolver }

/-- `createRootFieldMaybe(name, types)`: build the field map; return
`undefined` when it stayed empty, the root object type otherwise. -/
def createRootFieldMaybe {τ ρ : Type} (name : String)
    (types : List (RootFieldConfig τ ρ)) : Option (RootObjectType τ ρ) :=
  let fields := types.foldl addRootFieldConfig []
  if fields.length = 0 then none
  else some { name := name, fields := fields }

/-- The schema object `mergeSchemas` returns (the source asserts the query
root non-null with `!`; the `Option` is kept here). -/
structure MergedSchema (τ ρ δ : Type) where
  query : Option (RootObjectType τ ρ)
  mutation : Option (RootObjectType τ ρ)
  subscription : Option (RootObjectType τ ρ)
  directives : List δ

/-- `mergeSchemas(schemas)` from `schema-merger.ts`. -/
def mergeSchemas {τ ρ δ : Type} (isNativeDirective : δ → Bool)
    (specifiedDirectives : List δ) (schemas : List (NamedSchemaInput τ ρ δ)) :
    MergedSchema τ ρ δ :=
  { query := createRootFieldMaybe "Query" (schemas.map fun s =>
      { nspace := s.nspace, type := s.queryType, resolver := s.queryResolver })
    mutation := createRootFieldMaybe "Mutation" (schemas.map fun s =>
      { nspace := s.nspace, type := s.mutationType, resolver := s.mutationResolver })
    subscription := createRootFieldMaybe "Subscription" (schemas.map fun s =>
      { nspace := s.nspace, type := s.subscriptionType, resolver := s.subscriptionResolver })
    directives := (schemas.map (fun s => s.directives.filter
        (fun d => !isNativeDirective d))).foldl (fun a b => a ++ b) []
      ++ specifiedDirectives }

theorem jsObjSet_append {ν : Type} (obj : List (String × ν)) (k : String) (v : ν)
    (h : ∀ e ∈ obj, e.1 ≠ k) : jsObjSet obj k v = obj ++ [(k, v)] := by
  unfold jsObjSet
  rw [if_neg]
  simp only [List.any_eq_true, decide_eq_true_eq]
  rintro ⟨e, he, hek⟩
  exact h e he hek

theorem jsObjSet_ne_nil {ν : Type} (obj : List (String × ν)) (k : String) (v : ν) :
    jsObjSet obj k v ≠ [] := by
  unfold jsObjSet
  split
  · rename_i hany
    intro hmap
    rw [List.map_eq_nil_iff] at hmap
    subst hmap
    simp at hany
  · simp

theorem foldl_addRootFieldConfig_eq {τ ρ : Type} (types : List (RootFieldConfig τ ρ)) :
    ∀ acc : List (String × RootField τ ρ),
    (types.filterMap (fun cfg => cfg.type.map (fun _ => cfg.nspace))).Nodup →
    (∀ cfg ∈ types, cfg.type.isSome = true → ∀ e ∈ acc, e.1 ≠ cfg.nspace) →
    types.foldl addRootFieldConfig acc
      = acc ++ types.filterMap (fun cfg => cfg.type.map
          (fun t => (cfg.nspace, ({ type := t, resolve := cfg.resolver } : RootField τ ρ)))) := by
  induction types with
  | nil => intro acc _ _; simp
  | cons cfg rest ih =>
    intro acc hnd hdisj
    show rest.foldl addRootFieldConfig (addRootFieldConfig acc cfg) = _
    cases hty : cfg.type with
    | none =>
      have hstep : addRootFieldConfig acc cfg = acc := by
        unfold addRootFieldConfig; rw [hty]
      rw [hstep, List.filterMap_cons, hty]
      simp only [Option.map_none']
      refine ih acc ?_ ?_
      · simpa [List.filterMap_cons, hty] using hnd
      · exact fun c hc => hdisj c (List.mem_cons_of_mem _ hc)
    | some t =>
      have hstep : addRootFieldConfig acc cfg
          = acc ++ [(cfg.nspace, ({ type := t, resolve := cfg.resolver } : RootField τ ρ))] := by
        unfold addRootFieldConfig
        rw [hty]
        exact jsObjSet_append acc cfg.nspace _
          (fun e he => hdisj cfg (List.mem_cons_self _ _) (by rw [hty]; rfl) e he)
      have hkeys : (rest.filterMap (fun c => c.type.map (fun _ => c.nspace))).Nodup
          ∧ cfg.nspace ∉ rest.filterMap (fun c => c.type.map (fun _ => c.nspace)) := by
        have := hnd
        rw [List.filterMap_cons, hty] at this
        simp only [Option.map_some', List.nodup_cons] at this
        exact ⟨this.2, this.1⟩
      have hdisj' : ∀ c ∈ rest, c.type.isSome = true →
          ∀ e ∈ acc ++ [(cfg.nspace, ({ type := t, resolve := cfg.resolver } : RootField τ ρ))],
            e.1 ≠ c.nspace := by
        intro c hc hcsome e he
        rcases List.mem_append.mp he with he | he
        · exact hdisj c (List.mem_cons_of_mem _ hc) hcsome e he
        · have he' : e = (cfg.nspace, ({ type := t, resolve := cfg.resolver } : RootField τ ρ)) := by
            simpa using he
          subst he'
          intro hcontra
          apply hkeys.2
          refine List.mem_filterMap.mpr ⟨c, hc, ?_⟩
          rcases Option.isSome_iff_exists.mp hcsome with ⟨ct, hct⟩
          rw [hct]
          simp only [Option.map_some', Option.some.injEq]
          exact hcontra.symm
      rw [hstep, ih _ hkeys.1 hdisj', List.filterMap_cons, hty]
      simp [List.append_assoc]

theorem foldl_addRootFieldConfig_nil_iff {τ ρ : Type} (types : List (RootFieldConfig τ ρ)) :
    ∀ acc : List (String × RootField τ ρ),
    (types.foldl addRootFieldConfig acc = [] ↔ (acc = [] ∧ ∀ cfg ∈ types, cfg.type = none)) := by
  induction types with
  | nil => intro acc; simp
  | cons cfg rest ih =>
    intro acc
    show rest.foldl addRootFieldConfig (addRootFieldConfig acc cfg) = [] ↔ _
    rw [ih]
    cases hty : cfg.type with
    | none =>
      have hstep : addRootFieldConfig acc cfg = acc := by
        unfold addRootFieldConfig; rw [hty]
      rw [hstep]
      simp [List.forall_mem_cons, hty]
    | some t =>
      have hstep : addRootFieldConfig acc cfg
          = jsObjSet acc cfg.nspace { type := t, resolve := cfg.resolver } := by
        unfold addRootFieldConfig; rw [hty]
      rw [hstep]
      simp [List.forall_mem_cons, hty, jsObjSet_ne_nil]

/-- The contributor guard is a sublist of all namespaces. -/
theorem filterMap_guard_sublist {α β γ : Type} (l : List α) (p : α → Option γ) (g : α → β) :
    (l.filterMap (fun a => (p a).map (fun _ => g a))).Sublist (l.map g) := by
  induction l with
  | nil => simp
  | cons a t ih =>
    cases hp : p a
    · rw [List.filterMap_cons, hp]
      simp only [Option.map_none']
      exact ih.cons _
    · rw [List.filterMap_cons, hp]
      simp only [Option.map_some']
      exact ih.cons₂ _

/-- The contributed entries' keys are the contributing namespaces. -/
theorem contribs_keys {τ ρ : Type} (types : List (RootFieldConfig τ ρ)) :
    (types.filterMap (fun cfg => cfg.type.map
        (fun t => (cfg.nspace, ({ type := t, resolve := cfg.resolver } : RootField τ ρ))))).map
      Prod.fst
      = (types.filter (fun cfg => cfg.type.isSome)).map (fun cfg => cfg.nspace) := by
  induction types with
  | nil => rfl
  | cons cfg rest ih =>
    cases hty : cfg.type with
    | none =>
      rw [List.filterMap_cons, hty, List.filter_cons]
      simp [hty, ih]
    | some t =>
      rw [List.filterMap_cons, hty, List.filter_cons]
      simp [hty, ih]

theorem createRootFieldMaybe_none_iff {τ ρ : Type} (nm : String)
    (types : List (RootFieldConfig τ ρ)) :
    createRootFieldMaybe nm types = none ↔ ∀ cfg ∈ types, cfg.type = none := by
  have h := foldl_addRootFieldConfig_nil_iff types []
  simp only [true_and] at h
  unfold createRootFieldMaybe
  dsimp only
  split
  · rename_i hlen
    constructor
    · intro _
      exact h.mp (List.length_eq_zero.mp hlen)
    · intro _
      rfl
  · rename_i hlen
    constructor
    · intro hcontra
      exact absurd hcontra (Option.some_ne_none _)
    · intro hall
      exact absurd
        (show (types.foldl addRootFieldConfig []).length = 0 by rw [h.mpr hall]; rfl) hlen

theorem createRootFieldMaybe_fields_keys {τ ρ : Type} (nm : String)
    (types : List (RootFieldConfig τ ρ))
    (hnd : (types.filterMap (fun cfg => cfg.type.map (fun _ => cfg.nspace))).Nodup) :
    ∀ q, createRootFieldMaybe nm types = some q →
      q.fields.map Prod.fst
        = (types.filter (fun cfg => cfg.type.isSome)).map (fun cfg => cfg.nspace) := by
  intro q hq
  have hfold := foldl_addRootFieldConfig_eq types [] hnd
    (fun c _ _ e he => absurd he (List.not_mem_nil e))
  unfold createRootFieldMaybe at hq
  dsimp only at hq
  split at hq
  · cases hq
  · cases hq
    show (types.foldl addRootFieldConfig []).map Prod.fst = _
    rw [hfold, List.nil_append, contribs_keys]

/-- C8: for pairwise-distinct namespaces, the merged schema's `Query` root
(when emitted) has exactly one field per input schema contributing a query
root, named by that schema's namespace and in input order; the `Query`,
`Mutation` and `Subscription` roots are each absent exactly when no input
schema contributes the corresponding root type. -/
theorem mergeSchemas_namespaced_roots {τ ρ δ : Type} (isNativeDirective : δ → Bool)
    (specifiedDirectives : List δ) (schemas : List (NamedSchemaInput τ ρ δ))
    (hnd : (schemas.map (fun s => s.nspace)).Nodup) :
    (∀ q, (mergeSchemas isNativeDirective specifiedDirectives schemas).query = some q →
        q.fields.map Prod.fst
          = (schemas.filter (fun s => s.queryType.isSome)).map (fun s => s.nspace)) ∧
    ((mergeSchemas isNativeDirective specifiedDirectives schemas).query = none
        ↔ ∀ s ∈ schemas, s.queryType = none) ∧
    ((mergeSchemas isNativeDirective specifiedDirectives schemas).mutation = none
        ↔ ∀ s ∈ schemas, s.mutationType = none) ∧
    ((mergeSchemas isNativeDirective specifiedDirectives schemas).subscription = none
        ↔ ∀ s ∈ schemas, s.subscriptionType = none) := by
  refine ⟨?_, ?_, ?_, ?_⟩
  · intro q hq
    have hndq : ((schemas.map (fun s =>
        ({ nspace := s.nspace, type := s.queryType, resolver := s.queryResolver }
          : RootFieldConfig τ ρ))).filterMap
        (fun cfg => cfg.type.map (fun _ => cfg.nspace))).Nodup := by
      have hsub : ((schemas.map (fun s =>
          ({ nspace := s.nspace, type := s.queryType, resolver := s.queryResolver }
            : RootFieldConfig τ ρ))).filterMap
          (fun cfg => cfg.type.map (fun _ => cfg.nspace))).Sublist
          (schemas.map (fun s => s.nspace)) := by
        rw [List.filterMap_map]
        exact filterMap_guard_sublist schemas (fun s => s.queryType) (fun s => s.nspace)
      exact hnd.sublist hsub
    have h := createRootFieldMaybe_fields_keys "Query" _ hndq q hq
    rw [h, List.filter_map, List.map_map]
    rfl
  · show createRootFieldMaybe "Query" _ = none ↔ _
    rw [createRootFieldMaybe_none_iff]
    constructor
    · intro h s hs
      exact h _ (List.mem_map_of_mem _ hs)
    · intro h cfg hcfg
      rcases List.mem_map.mp hcfg with ⟨s, hs, rfl⟩
      exact h s hs
  · show createRootFieldMaybe "Mutation" _ = none ↔ _
    rw [createRootFieldMaybe_none_iff]
    constructor
    · intro h s hs
      exact h _ (List.mem_map_of_mem _ hs)
    · intro h cfg hcfg
      rcases List.mem_map.mp hcfg with ⟨s, hs, rfl⟩
      exact h s hs
  · show createRootFieldMaybe "Subscription" _ = none ↔ _
    rw [createRootFieldMaybe_none_iff]
    constructor
    · intro h s hs
      exact h _ (List.mem_map_of_mem _ hs)
    · intro h cfg hcfg
      rcases List.mem_map.mp hcfg with ⟨s, hs, rfl⟩
      exact h s hs

/-- The `users` demo schema: query and mutation roots, no subscription. -/
def usersSchema : NamedSchemaInput Unit Unit Unit :=
  { nspace := "users", queryType := some (), mutationType := some (),
    subscriptionType := none, queryResolver := none, mutationResolver := none,
    subscriptionResolver := none, directives := [] }

/-- The `posts` demo schema: a query root only. -/
def postsSchema : NamedSchemaInput Unit Unit Unit :=
  { nspace := "posts", queryType := some (), mutationType := none,
    subscriptionType := none, queryResolver := none, mutationResolver := none,
    subscriptionResolver := none, directives := [] }

/-- C8 witness: merging the two demo schemas yields a `Query` root with
exactly the fields `users` and `posts`, a `Mutation` root (only `users`
contributes one), and no `Subscription` root. -/
theorem mergeSchemas_namespaced_roots_witness :
    ((mergeSchemas (fun _ => false) ([] : List Unit)
        [usersSchema, postsSchema]).query.map (fun q => q.fields.map Prod.fst))
      = some ["users", "posts"] ∧
    (mergeSchemas (fun _ => false) ([] : List Unit)
        [usersSchema, postsSchema]).mutation ≠ none ∧
    (mergeSchemas (fun _ => false) ([] : List Unit)
        [usersSchema, postsSchema]).subscription = none := by
  have h := mergeSchemas_namespaced_roots (fun _ => false) ([] : List Unit)
    [usersSchema, postsSchema] (by decide)
  refine ⟨?_, ?_, ?_⟩
  · rcases hqe : (mergeSchemas (fun _ => false) ([] : List Unit)
        [usersSchema, postsSchema]).query with _ | q
    · exact absurd (h.2.1.mp hqe usersSchema (by simp)) (by simp [usersSchema])
    · rw [Option.map_some', h.1 q hqe]
      rfl
  · intro hnone
    exact absurd (h.2.2.1.mp hnone usersSchema (by simp)) (by simp [usersSchema])
  · exact h.2.2.2.mpr (by decide)

end GraphQLWeaver
